import Mathlib

/-
Verification development for the base_aero_rewards pipeline.

Shallow embedding notes.
- Python floats are modelled as rationals.  A float field that the source can
  set to the NaN sentinel (math.nan) is modelled as an Option rational, where
  none stands for NaN and some q for an ordinary finite value q.  No value in
  this pipeline can become an infinity, since every division site is guarded
  by the corresponding truthiness or positivity test in the source.
- Python dicts used as lookup tables are modelled as functions into Option;
  the insertion-ordered dicts of fetch_prices.update_price_map are modelled
  as association lists with Python dict update semantics.
- String methods str.lower, str.strip, str.isprintable and int(text) are
  modelled by kernel-computable helpers below; isprintable is modelled for
  the ASCII range, which covers every string these claims touch.
- Network effects are modelled by oracles passed in as function arguments
  (tokenDecimals, weight_map, reward_map, price_map, transport), so each
  source function becomes a pure function of its fetched inputs.
-/

namespace AeroRewards

/-! ## Kernel-computable models of the Python string primitives -/

/-- Model of str.lower (the source only lowercases hex addresses and ASCII
symbols, for which Char.toLower agrees with Python). -/
def pyToLower (s : String) : String := ⟨s.data.map Char.toLower⟩

def pyIsSpace (c : Char) : Bool := c = ' ' ∨ c = '\t' ∨ c = '\n' ∨ c = '\r'

/-- Model of str.strip with no argument: drop leading and trailing whitespace. -/
def pyStrip (s : String) : String :=
  ⟨((s.data.dropWhile pyIsSpace).reverse.dropWhile pyIsSpace).reverse⟩

/-- Model of str.isprintable restricted to the ASCII range: control characters
(code points below 32) and DEL are the non-printable ones. -/
def pyIsPrintable (s : String) : Bool :=
  s.data.all (fun c => decide (32 ≤ c.toNat ∧ c.toNat ≠ 127))

def pyIsDigit (c : Char) : Bool := decide (48 ≤ c.toNat ∧ c.toNat ≤ 57)

def pyDigitsToNat (cs : List Char) : ℕ :=
  cs.foldl (fun acc c => 10 * acc + (c.toNat - 48)) 0

/-- Model of int(text) on an already stripped string: an optional sign
followed by at least one decimal digit; anything else raises ValueError,
modelled as none. -/
def pyToInt (s : String) : Option ℤ :=
  match s.data with
  | [] => none
  | '-' :: rest =>
    if rest ≠ [] ∧ rest.all pyIsDigit then some (-(pyDigitsToNat rest : ℤ)) else none
  | '+' :: rest =>
    if rest ≠ [] ∧ rest.all pyIsDigit then some ((pyDigitsToNat rest : ℤ)) else none
  | cs => if cs.all pyIsDigit then some ((pyDigitsToNat cs : ℤ)) else none

/-! ## Constants from main.py -/

def ZERO_ADDR : String := "0x0000000000000000000000000000000000000000"

/-- The fixed junk token set dropped by iter_pools (main.py). -/
def junk_tokens : List String :=
  [ "0xffffffffffffffffffffffffffffffffffffffff",
    "0x000000000000000000000000016345785d8a0000",
    "0x00000000000000000000000000000000000003e8" ]

/-- DEFAULT_PRICE_MAP from main.py: the two hardcoded Base USDC stable prices. -/
def DEFAULT_PRICE_MAP : List (String × ℚ) :=
  [ ("0x833589fcd6edb6e08f4c7c32d4f71b54bda02913", 1),
    ("0xd9aaec86b65d86f6a7b5b1b0c42ffa531710b6ca", 1) ]

/-! ## Data model (main.py) -/

/-- The fields of a normalized pool struct from the LP sugar all() call that
parse_pool and iter_pools actually read (see STRUCT_KEYS in main.py). -/
structure PoolStruct where
  lp : String
  symbol : String
  decimals : ℤ
  token0 : String
  token1 : String
  gauge : String
  emissions_token : String
  token0_fees : ℤ
  token1_fees : ℤ
  emissions : ℤ
deriving DecidableEq

/-- A normalized reward epoch entry (rewards sugar epochsByAddress), as
produced by the source normalize step: bribes and fees are lists of
token address and raw integer amount pairs. -/
structure Reward where
  ts : ℤ
  votes : ℤ
  emissions : ℤ
  bribes : List (String × ℤ)
  fees : List (String × ℤ)
deriving DecidableEq

/-- PoolRow dataclass from main.py.  Fields that the source can set to the
float NaN sentinel (token0_fees, token1_fees, ratio, votes_per_tvv) are
Option rationals with none modelling NaN. -/
structure PoolRow where
  address : String
  name : String
  token0 : String
  token1 : String
  gauge : String
  emissions_token : String
  emissions_decimals : ℤ
  token0_decimals : ℕ
  token1_decimals : ℕ
  token0_fees_raw : ℤ
  token1_fees_raw : ℤ
  token0_fees : Option ℚ
  token1_fees : Option ℚ
  fees_raw : ℤ
  tvv_raw : ℤ
  votes_raw : ℤ
  votes : ℚ
  ratio : Option ℚ
  tfv : ℚ
  tbv : ℚ
  tvv : ℚ
  votes_per_tvv : Option ℚ
  rewards_epoch_ts : ℤ
  emissions_raw : ℤ
deriving DecidableEq

/-! ## Valuation (main.py: usd_amount, parse_pool, iter_pools) -/

/-- Model of main.py usd_amount: unpriced tokens contribute exactly 0; priced
amounts are scaled by the memoized token decimals and multiplied by the USD
price.  tokenDecimals is the oracle for the memoized decimals() call. -/
def usd_amount (tokenDecimals : String → ℕ) (price_map : String → Option ℚ)
    (token : String) (amount : ℤ) : ℚ :=
  match price_map (pyToLower token) with
  | none => 0
  | some price => ((amount : ℚ) / 10 ^ tokenDecimals token) * price

/-- Model of main.py parse_pool.  The struct is already normalized; the
reward argument is the optional most recent epoch; votes_raw is the resolved
voter weight. -/
def parse_pool (tokenDecimals : String → ℕ) (pool : PoolStruct) (votes_raw : ℤ)
    (reward : Option Reward) (price_map : String → Option ℚ) : PoolRow :=
  let lp := pool.lp
  let symbol :=
    if pool.symbol = "" ∨ pyStrip pool.symbol = "" ∨ ¬ pyIsPrintable pool.symbol
    then lp else pool.symbol
  let token0_decimals := tokenDecimals pool.token0
  let token1_decimals := tokenDecimals pool.token1
  let token0_fees_raw := pool.token0_fees
  let token1_fees_raw := pool.token1_fees
  let fees_raw := token0_fees_raw + token1_fees_raw
  let emissions_raw := pool.emissions
  let fees := match reward with | some r => r.fees | none => []
  let bribes := match reward with | some r => r.bribes | none => []
  let tfv := (fees.map (fun item => usd_amount tokenDecimals price_map item.1 item.2)).sum
  let tbv := (bribes.map (fun item => usd_amount tokenDecimals price_map item.1 item.2)).sum
  let tvv := tfv + tbv
  { address := lp
    name := symbol
    token0 := pool.token0
    token1 := pool.token1
    gauge := pool.gauge
    emissions_token := pool.emissions_token
    emissions_decimals := pool.decimals
    token0_decimals := token0_decimals
    token1_decimals := token1_decimals
    token0_fees_raw := token0_fees_raw
    token1_fees_raw := token1_fees_raw
    token0_fees :=
      if token0_decimals = 0 then none
      else some ((token0_fees_raw : ℚ) / 10 ^ token0_decimals)
    token1_fees :=
      if token1_decimals = 0 then none
      else some ((token1_fees_raw : ℚ) / 10 ^ token1_decimals)
    fees_raw := fees_raw
    tvv_raw := emissions_raw
    votes_raw := votes_raw
    votes := (votes_raw : ℚ) / 10 ^ 18
    ratio := if votes_raw = 0 then none else some (tvv / (votes_raw : ℚ))
    tfv := tfv
    tbv := tbv
    tvv := tvv
    votes_per_tvv :=
      if 0 < tvv then some (((votes_raw : ℚ) / 10 ^ 18) / tvv) else none
    rewards_epoch_ts := match reward with | some r => r.ts | none => 0
    emissions_raw := emissions_raw }

/-- Model of the pure tail of main.py iter_pools, after the pool structs,
voter weights, reward epochs and the final price map have been fetched:
pools whose resolved weight is missing or not positive are skipped, pools
with a zero-address or junk token are skipped, every other pool is valued
by parse_pool with the first reward epoch (if any). -/
def iter_pools (tokenDecimals : String → ℕ) (pools : List PoolStruct)
    (weight_map : String → Option ℤ) (reward_map : String → Option (List Reward))
    (price_map : String → Option ℚ) : List PoolRow :=
  pools.filterMap fun pool_dict =>
    let votes_raw := (weight_map pool_dict.lp).getD 0
    if votes_raw ≤ 0 then none
    else
      if pyToLower pool_dict.token0 = ZERO_ADDR ∨ pyToLower pool_dict.token1 = ZERO_ADDR
          ∨ pyToLower pool_dict.token0 ∈ junk_tokens ∨ pyToLower pool_dict.token1 ∈ junk_tokens
      then none
      else
        let reward_entries := (reward_map pool_dict.lp).getD []
        some (parse_pool tokenDecimals pool_dict votes_raw reward_entries.head? price_map)

/-! ## Snapshot writer and loader (main.py: write_csv; compare_pools.py: load_pools)

A CSV cell is modelled by the dynamic type the Python csv layer round-trips
through str(): an int serializes to a digit string that int() reparses, a
finite float serializes to a repr that float() reparses exactly and int()
rejects, NaN serializes to the text nan which float() reparses to NaN, and
everything else is a plain string. -/

inductive Cell where
  | int : ℤ → Cell
  | float : ℚ → Cell
  | nan : Cell
  | str : String → Cell
deriving DecidableEq

def cellOfOpt (o : Option ℚ) : Cell :=
  match o with
  | some q => .float q
  | none => .nan

/-- One CSV row in the fixed write_csv column order. -/
structure CsvRecord where
  name : Cell
  vote_pct : Cell
  address : Cell
  gauge : Cell
  token0 : Cell
  token1 : Cell
  emissions_token : Cell
  emissions_decimals : Cell
  token0_decimals : Cell
  token1_decimals : Cell
  token0_fees_raw : Cell
  token1_fees_raw : Cell
  token0_fees : Cell
  token1_fees : Cell
  fees_raw : Cell
  emissions_raw : Cell
  votes_raw : Cell
  votes : Cell
  ratio : Cell
  tfv : Cell
  tbv : Cell
  tvv : Cell
  votes_per_tvv : Cell
  rewards_epoch_ts : Cell
deriving DecidableEq

/-- Per-pool vote share: votes_raw over the snapshot total, times 100, or the
NaN sentinel when the total is zero (main.py write_csv). -/
def vote_pct_of (total_votes : ℤ) (r : PoolRow) : Option ℚ :=
  if total_votes = 0 then none else some ((r.votes_raw : ℚ) / (total_votes : ℚ) * 100)

/-- The vote_pct column write_csv emits for each kept row, in row order. -/
def vote_pcts (rows : List PoolRow) : List (Option ℚ) :=
  rows.map (vote_pct_of ((rows.map PoolRow.votes_raw).sum))

/-- One data row of write_csv. -/
def writeRow (r : PoolRow) (pct : Option ℚ) : CsvRecord :=
  { name := .str r.name
    vote_pct := cellOfOpt pct
    address := .str r.address
    gauge := .str r.gauge
    token0 := .str r.token0
    token1 := .str r.token1
    emissions_token := .str r.emissions_token
    emissions_decimals := .int r.emissions_decimals
    token0_decimals := .int (r.token0_decimals : ℤ)
    token1_decimals := .int (r.token1_decimals : ℤ)
    token0_fees_raw := .int r.token0_fees_raw
    token1_fees_raw := .int r.token1_fees_raw
    token0_fees := cellOfOpt r.token0_fees
    token1_fees := cellOfOpt r.token1_fees
    fees_raw := .int r.fees_raw
    emissions_raw := .int r.emissions_raw
    votes_raw := .int r.votes_raw
    votes := .float r.votes
    ratio := cellOfOpt r.ratio
    tfv := .float r.tfv
    tbv := .float r.tbv
    tvv := .float r.tvv
    votes_per_tvv := cellOfOpt r.votes_per_tvv
    rewards_epoch_ts := .int r.rewards_epoch_ts }

/-- The synthetic TOTAL summary row of write_csv.  Per-pool identity columns
are empty strings; the votes and rewards_epoch_ts keys are absent from the
summary dict, so DictWriter fills them with the empty string as well;
NaN-skipping sums are modelled by summing the defined Option values. -/
def totalRow (rows : List PoolRow) : CsvRecord :=
  let total_votes := (rows.map PoolRow.votes_raw).sum
  let total_tvv := (rows.map PoolRow.tvv).sum
  { name := .str "TOTAL"
    vote_pct := .float 100
    address := .str ""
    gauge := .str ""
    token0 := .str ""
    token1 := .str ""
    emissions_token := .str ""
    emissions_decimals := .str ""
    token0_decimals := .str ""
    token1_decimals := .str ""
    token0_fees_raw := .int ((rows.map PoolRow.token0_fees_raw).sum)
    token1_fees_raw := .int ((rows.map PoolRow.token1_fees_raw).sum)
    token0_fees := .float ((rows.filterMap PoolRow.token0_fees).sum)
    token1_fees := .float ((rows.filterMap PoolRow.token1_fees).sum)
    fees_raw := .int ((rows.map PoolRow.fees_raw).sum)
    emissions_raw := .int ((rows.map PoolRow.emissions_raw).sum)
    votes_raw := .int total_votes
    votes := .str ""
    ratio := cellOfOpt (if total_votes = 0 then none else some (total_tvv / (total_votes : ℚ)))
    tfv := .float ((rows.map PoolRow.tfv).sum)
    tbv := .float ((rows.map PoolRow.tbv).sum)
    tvv := .float total_tvv
    votes_per_tvv :=
      cellOfOpt (if 0 < total_tvv
        then some (((total_votes : ℚ) / 10 ^ 18) / total_tvv) else none)
    rewards_epoch_ts := .str "" }

/-- Model of main.py write_csv: one row per kept PoolRow in input order,
followed by the TOTAL summary row whenever at least one row was written. -/
def write_csv (rows : List PoolRow) : List CsvRecord :=
  let total_votes := (rows.map PoolRow.votes_raw).sum
  rows.map (fun r => writeRow r (vote_pct_of total_votes r))
    ++ (if rows.isEmpty then [] else [totalRow rows])

/-- Model of compare_pools parse_number applied to the serialized form of a
cell: int text reparses as int, float repr reparses as the same float (int()
rejects it since a float repr always carries a dot, an exponent or a special
word), nan reparses as NaN, empty or whitespace text is returned unchanged,
and remaining text is reparsed as an int when it is an integer literal.
Reparsing of non-integer free text (a symbol that happens to look like a
float literal) is not modelled; no numeric column produces such text. -/
def parse_number (c : Cell) : Cell :=
  match c with
  | .int n => .int n
  | .float q => .float q
  | .nan => .nan
  | .str s =>
    let text := pyStrip s
    if text = "" then .str s
    else
      match pyToInt text with
      | some n => .int n
      | none => .str s

def parse_record (rec : CsvRecord) : CsvRecord :=
  { name := parse_number rec.name
    vote_pct := parse_number rec.vote_pct
    address := parse_number rec.address
    gauge := parse_number rec.gauge
    token0 := parse_number rec.token0
    token1 := parse_number rec.token1
    emissions_token := parse_number rec.emissions_token
    emissions_decimals := parse_number rec.emissions_decimals
    token0_decimals := parse_number rec.token0_decimals
    token1_decimals := parse_number rec.token1_decimals
    token0_fees_raw := parse_number rec.token0_fees_raw
    token1_fees_raw := parse_number rec.token1_fees_raw
    token0_fees := parse_number rec.token0_fees
    token1_fees := parse_number rec.token1_fees
    fees_raw := parse_number rec.fees_raw
    emissions_raw := parse_number rec.emissions_raw
    votes_raw := parse_number rec.votes_raw
    votes := parse_number rec.votes
    ratio := parse_number rec.ratio
    tfv := parse_number rec.tfv
    tbv := parse_number rec.tbv
    tvv := parse_number rec.tvv
    votes_per_tvv := parse_number rec.votes_per_tvv
    rewards_epoch_ts := parse_number rec.rewards_epoch_ts }

/-- Model of compare_pools load_pools: every row of the file (the TOTAL row
included) is loaded and each cell is coerced by parse_number. -/
def load_pools (file : List CsvRecord) : List CsvRecord := file.map parse_record

/-- The numeric-field correspondence of claim C6: the loaded row reproduces
every numeric field of the written record, with integer fields back as ints
and float fields back as the same rationals (NaN back as NaN). -/
def numericFieldsEq (lr : CsvRecord) (r : PoolRow) (pct : Option ℚ) : Prop :=
  lr.vote_pct = cellOfOpt pct ∧
  lr.emissions_decimals = .int r.emissions_decimals ∧
  lr.token0_decimals = .int (r.token0_decimals : ℤ) ∧
  lr.token1_decimals = .int (r.token1_decimals : ℤ) ∧
  lr.token0_fees_raw = .int r.token0_fees_raw ∧
  lr.token1_fees_raw = .int r.token1_fees_raw ∧
  lr.token0_fees = cellOfOpt r.token0_fees ∧
  lr.token1_fees = cellOfOpt r.token1_fees ∧
  lr.fees_raw = .int r.fees_raw ∧
  lr.emissions_raw = .int r.emissions_raw ∧
  lr.votes_raw = .int r.votes_raw ∧
  lr.votes = .float r.votes ∧
  lr.ratio = cellOfOpt r.ratio ∧
  lr.tfv = .float r.tfv ∧
  lr.tbv = .float r.tbv ∧
  lr.tvv = .float r.tvv ∧
  lr.votes_per_tvv = cellOfOpt r.votes_per_tvv ∧
  lr.rewards_epoch_ts = .int r.rewards_epoch_ts

/-! ## Batched weight fetcher (main.py: rpc_batch and fetch_weights) -/

/-- One entry of a JSON-RPC batch response: the call id it answers and the
optional result field, already hex-decoded to the unsigned 256-bit word. -/
structure RpcResp where
  id : ℕ
  result : Option ℕ
deriving DecidableEq

/-- Model of main.py decode_int256: two-complement decoding of a 256-bit word. -/
def decode_int256 (v : ℕ) : ℤ :=
  if 2 ^ 255 ≤ v then (v : ℤ) - 2 ^ 256 else (v : ℤ)

/-- Python enumerate with a running offset, used for the global call ids
(call_id = start + idx in the source). -/
def enumFromN (n : ℕ) : List String → List (ℕ × String)
  | [] => []
  | a :: as => (n, a) :: enumFromN (n + 1) as

/-- The chunking of range(0, len, chunk_size) slicing in the source. -/
def chunksOf {α : Type} (n : ℕ) (l : List α) : List (List α) :=
  if hE : l.isEmpty then []
  else if hN : n = 0 then [l]
  else l.take n :: chunksOf n (l.drop n)
termination_by l.length
decreasing_by
  simp only [List.length_drop]
  have hl : 0 < l.length := by
    cases l with
    | nil => simp at hE
    | cons a t => simp
  omega

/-- Decoding of one chunk of batch responses in fetch_weights: responses
without a result field are dropped; a response with a result is mapped back
to its address through the chunk id map and decoded as a signed weight.
(A response id outside the submitted chunk raises KeyError in Python; such
responses never occur against the modelled transport and are dropped here.) -/
def decode_chunk (batch : List (ℕ × String)) (resps : List RpcResp) : List (String × ℤ) :=
  resps.filterMap fun item =>
    match item.result with
    | none => none
    | some v =>
      match batch.find? (fun c => c.1 == item.id) with
      | none => none
      | some c => some (c.2, decode_int256 v)

/-- Sequential submission of the chunks: the transport models rpc_batch, and
an exception from it propagates out of the whole fetch, exactly as the
uncaught requests/RuntimeError exception does in the source. -/
def fetch_weights_chunks (transport : List (ℕ × String) → Except String (List RpcResp)) :
    List (List (ℕ × String)) → Except String (List (String × ℤ))
  | [] => .ok []
  | c :: cs =>
    match transport c with
    | .error e => .error e
    | .ok resps =>
      match fetch_weights_chunks transport cs with
      | .error e => .error e
      | .ok rest => .ok (decode_chunk c resps ++ rest)

/-- Model of main.py fetch_weights: addresses are enumerated into global call
ids, chunked, and each chunk is submitted through the transport. -/
def fetch_weights (addresses : List String)
    (transport : List (ℕ × String) → Except String (List RpcResp))
    (chunk_size : ℕ) : Except String (List (String × ℤ)) :=
  fetch_weights_chunks transport (chunksOf chunk_size (enumFromN 0 addresses))

/-! ## Price map persistence (fetch_prices.py: update_price_map) -/

/-- A Python dict with string keys and float values, modelled as an
insertion-ordered association list. -/
abbrev PyDict := List (String × ℚ)

/-- Python dict item assignment: an existing key keeps its position and gets
the new value, a new key is appended. -/
def dictSet (d : PyDict) (k : String) (v : ℚ) : PyDict :=
  if d.any (fun p => p.1 == k) then d.map (fun p => if p.1 = k then (k, v) else p)
  else d ++ [(k, v)]

/-- Python dict lookup: the first (hence unique, for a real dict) entry. -/
def dictGet (d : PyDict) (k : String) : Option ℚ :=
  (d.find? (fun p => p.1 == k)).map Prod.snd

/-- Python dict.update: each item of the right dict is assigned in order. -/
def dictUpdate (d new : PyDict) : PyDict :=
  new.foldl (fun acc p => dictSet acc p.1 p.2) d

/-- The lowercasing dict comprehension of update_price_map. -/
def lowerKeys (d : PyDict) : PyDict :=
  d.foldl (fun acc p => dictSet acc (pyToLower p.1) p.2) []

/-- Model of fetch_prices.update_price_map: the previously persisted map is
read from disk, updated with the fresh prices, lowercased and written back.
The function result is the map written to disk. -/
def update_price_map (disk new_prices : PyDict) : PyDict :=
  lowerKeys (dictUpdate disk new_prices)

/-- First-defined choice between two optional values, used to state the
override direction of the merged price map. -/
def optionOr (a b : Option ℚ) : Option ℚ :=
  match a with
  | some v => some v
  | none => b

/-! ## Snapshot comparator (compare_pools.py) -/

/-- The minimal per-pool view built by load_votes, keyed by lowercased
address. -/
structure VoteEntry where
  address : String
  name : String
  votes : ℚ
  vote_pct : Option ℚ
deriving DecidableEq

/-- One vote change record produced by compare_vote_changes. -/
structure Change where
  address : String
  name : String
  current_votes : ℚ
  previous_votes : ℚ
  delta_votes : ℚ
  delta_pct : Option ℚ
deriving DecidableEq

/-- The per-address record built inside the compare loop: missing entries
default to 0 votes, and delta_pct is the NaN-free None exactly when the
previous votes are zero (Python truthiness of prev_votes). -/
def mkChange (current previous : String → Option VoteEntry) (addr : String) : Change :=
  let c := current addr
  let p := previous addr
  let cv := match c with | some e => e.votes | none => 0
  let pv := match p with | some e => e.votes | none => 0
  let d := cv - pv
  { address := match c with | some e => e.address | none => match p with | some e => e.address | none => addr
    name := match c with | some e => e.name | none => match p with | some e => e.name | none => addr
    current_votes := cv
    previous_votes := pv
    delta_votes := d
    delta_pct := if pv = 0 then none else some (d / pv * 100) }

/-- Stable insertion into a descending-by-key list: the new element goes in
front of the first element whose key does not exceed it, so elements with
equal keys keep their original relative order. -/
def insertDesc {α : Type} (key : α → ℚ) (x : α) : List α → List α
  | [] => [x]
  | y :: ys => if key y ≤ key x then x :: y :: ys else y :: insertDesc key x ys

/-- Stable descending sort by key, modelling Python list.sort with
reverse=True (which is stable). -/
def sortDesc {α : Type} (key : α → ℚ) (l : List α) : List α :=
  l.foldr (insertDesc key) []

/-- Python list slicing l[:n] for an arbitrary integer n. -/
def pySlice {α : Type} (l : List α) (n : ℤ) : List α :=
  if 0 ≤ n then l.take n.toNat else l.take (l.length - (-n).toNat)

/-- Model of compare_pools.compare_vote_changes over the two loaded vote
maps.  Python iterates the union of the two key sets, whose iteration order
is unspecified; the order argument makes that iteration order explicit.
The final line of the source is changes[:top_n] if top_n else changes, so a
top_n of None or 0 returns the full sorted list. -/
def compare_vote_changes (current previous : String → Option VoteEntry)
    (order : List String) (top_n : Option ℤ) : List Change :=
  let changes := order.map (mkChange current previous)
  let sorted := sortDesc (fun ch => |ch.delta_votes|) changes
  match top_n with
  | none => sorted
  | some n => if n = 0 then sorted else pySlice sorted n

/-! ## Concrete inputs used by the witnesses and counterexamples -/

/-- Decimals oracle returning the default 18 for every token. -/
def decK : String → ℕ := fun _ => 18

/-- A plain pool struct with ordinary token addresses. -/
def poolK : PoolStruct := ⟨"p", "S", 18, "t0", "t1", "g", "e", 0, 0, 0⟩

/-- A weight map giving pool p a weight of 5e18. -/
def wmapK : String → Option ℤ := fun k => if k = "p" then some (5 * 10 ^ 18) else none

/-- A reward map with no epochs. -/
def rmapK : String → Option (List Reward) := fun _ => none

/-- An empty price map. -/
def pmK : String → Option ℚ := fun _ => none

/-- Decimals oracle for the C10 witness: token t0 resolves to 0 decimals,
every other token to 2. -/
def decC10 : String → ℕ := fun t => if t = "t0" then 0 else 2

/-- Pool struct for the C10 witness, with nonzero raw fee accumulators. -/
def poolC10 : PoolStruct := ⟨"p", "S", 18, "t0", "t1", "g", "e", 7, 300, 0⟩

/-- A fully concrete PoolRow for the C6 round-trip witness. -/
def rowW : PoolRow :=
  { address := "p", name := "S", token0 := "t0", token1 := "t1", gauge := "g"
    emissions_token := "e", emissions_decimals := 18, token0_decimals := 6
    token1_decimals := 18, token0_fees_raw := 10, token1_fees_raw := 20
    token0_fees := some 1, token1_fees := none, fees_raw := 30, tvv_raw := 0
    votes_raw := 4, votes := 4, ratio := none, tfv := 1, tbv := 2, tvv := 3
    votes_per_tvv := some 2, rewards_epoch_ts := 99, emissions_raw := 0 }

/-- Current snapshot of the C4 scenario: A has 150 votes, B has 200, C absent. -/
def currC4 : String → Option VoteEntry := fun k =>
  if k = "a" then some ⟨"a", "A", 150, none⟩
  else if k = "b" then some ⟨"b", "B", 200, none⟩
  else none

/-- Previous snapshot of the C4 scenario: A has 100 votes, B has 200, C has 50. -/
def prevC4 : String → Option VoteEntry := fun k =>
  if k = "a" then some ⟨"a", "A", 100, none⟩
  else if k = "b" then some ⟨"b", "B", 200, none⟩
  else if k = "c" then some ⟨"c", "C", 50, none⟩
  else none

/-- The expected change record for pool A in the C4 scenario. -/
def recA4 : Change := ⟨"a", "A", 150, 100, 50, some 50⟩

/-- The expected change record for pool B in the C4 scenario. -/
def recB4 : Change := ⟨"b", "B", 200, 200, 0, some 0⟩

/-- The expected change record for pool C in the C4 scenario. -/
def recC4 : Change := ⟨"c", "C", 0, 50, -50, some (-100)⟩

/-- A snapshot in which pool z has exactly zero votes (used for C7 and C8). -/
def votesZ : String → Option VoteEntry := fun k =>
  if k = "z" then some ⟨"z", "Z", 0, none⟩ else none

/-- A pair of snapshots with identical nonzero votes for pool w. -/
def votesW : String → Option VoteEntry := fun k =>
  if k = "w" then some ⟨"w", "W", 7, none⟩ else none

/-- A transport that answers the first weight chunk and fails on every other
chunk with an HTTP-style error. -/
def transportC2 : List (ℕ × String) → Except String (List RpcResp) := fun c =>
  if c = [(0, "a")] then .ok [⟨0, some 5⟩] else .error "http 500"

/-! ## Helper lemmas -/

theorem parse_pool_votes_raw (d : String → ℕ) (p : PoolStruct) (v : ℤ)
    (rw : Option Reward) (pm : String → Option ℚ) :
    (parse_pool d p v rw pm).votes_raw = v := rfl

theorem parse_pool_votes_per_tvv_eq (d : String → ℕ) (p : PoolStruct) (v : ℤ)
    (rw : Option Reward) (pm : String → Option ℚ) :
    (parse_pool d p v rw pm).votes_per_tvv =
      if 0 < (parse_pool d p v rw pm).tvv
      then some (((v : ℚ) / 10 ^ 18) / (parse_pool d p v rw pm).tvv) else none := rfl

theorem iter_pools_mem_elim {tokenDecimals : String → ℕ} {pools : List PoolStruct}
    {weight_map : String → Option ℤ} {reward_map : String → Option (List Reward)}
    {price_map : String → Option ℚ} {r : PoolRow}
    (hr : r ∈ iter_pools tokenDecimals pools weight_map reward_map price_map) :
    ∃ p ∈ pools, 0 < (weight_map p.lp).getD 0 ∧
      r = parse_pool tokenDecimals p ((weight_map p.lp).getD 0)
            (((reward_map p.lp).getD []).head?) price_map := by
  rw [iter_pools, List.mem_filterMap] at hr
  obtain ⟨p, hp, heq⟩ := hr
  by_cases h1 : (weight_map p.lp).getD 0 ≤ 0
  · simp only [h1, if_true] at heq
    exact absurd heq (by simp)
  · by_cases h2 : pyToLower p.token0 = ZERO_ADDR ∨ pyToLower p.token1 = ZERO_ADDR
        ∨ pyToLower p.token0 ∈ junk_tokens ∨ pyToLower p.token1 ∈ junk_tokens
    · simp only [h1, h2, if_false, if_true] at heq
      exact absurd heq (by simp)
    · refine ⟨p, hp, lt_of_not_le h1, ?_⟩
      simp only [h1, h2, if_false] at heq
      injection heq with h
      exact h.symm

/-- Every row kept by iter_pools carries the positive resolved weight. -/
theorem iter_pools_votes_pos {tokenDecimals : String → ℕ} {pools : List PoolStruct}
    {weight_map : String → Option ℤ} {reward_map : String → Option (List Reward)}
    {price_map : String → Option ℚ} {r : PoolRow}
    (hr : r ∈ iter_pools tokenDecimals pools weight_map reward_map price_map) :
    0 < r.votes_raw := by
  obtain ⟨p, _, hv, rfl⟩ := iter_pools_mem_elim hr
  rw [parse_pool_votes_raw]
  exact hv

/-- Core of claim C1 at the level of parse_pool: when the resolved vote
weight is positive, votes_per_tvv is a defined positive value iff tvv is
positive, and is the NaN sentinel (none) otherwise. -/
theorem parse_pool_votes_per_tvv_pos_iff (d : String → ℕ) (p : PoolStruct) (v : ℤ)
    (rw : Option Reward) (pm : String → Option ℚ) (hv : 0 < v) :
    ((∃ q, (parse_pool d p v rw pm).votes_per_tvv = some q ∧ 0 < q) ↔
        0 < (parse_pool d p v rw pm).tvv) ∧
      (¬ 0 < (parse_pool d p v rw pm).tvv → (parse_pool d p v rw pm).votes_per_tvv = none) := by
  rw [parse_pool_votes_per_tvv_eq]
  by_cases h : 0 < (parse_pool d p v rw pm).tvv
  · rw [if_pos h]
    have hv0 : (0 : ℚ) < (v : ℚ) := by exact_mod_cast hv
    have hq : 0 < ((v : ℚ) / 10 ^ 18) / (parse_pool d p v rw pm).tvv :=
      div_pos (div_pos hv0 (by positivity)) h
    exact ⟨⟨fun _ => h, fun _ => ⟨_, rfl, hq⟩⟩, fun hc => absurd h hc⟩
  · rw [if_neg h]
    refine ⟨⟨?_, fun hc => absurd hc h⟩, fun _ => rfl⟩
    rintro ⟨q, hq, -⟩
    exact absurd hq (by simp)

/-- C1: for every PoolRecord produced by the valuation step of the pipeline,
votes_per_tvv is a defined (finite) positive value iff tvv is positive, and
whenever tvv is not positive it is the explicit NaN sentinel (none in this
embedding), never 0 and never an infinity. -/
theorem C1_votes_per_tvv_defined_iff_tvv_pos (tokenDecimals : String → ℕ)
    (pools : List PoolStruct) (weight_map : String → Option ℤ)
    (reward_map : String → Option (List Reward)) (price_map : String → Option ℚ)
    (r : PoolRow)
    (hr : r ∈ iter_pools tokenDecimals pools weight_map reward_map price_map) :
    ((∃ q, r.votes_per_tvv = some q ∧ 0 < q) ↔ 0 < r.tvv) ∧
      (¬ 0 < r.tvv → r.votes_per_tvv = none) := by
  obtain ⟨p, _, hv, rfl⟩ := iter_pools_mem_elim hr
  exact parse_pool_votes_per_tvv_pos_iff _ _ _ _ _ hv

/-- C1 witness: on a concrete one-pool pipeline input with no reward data,
the kept record has tvv = 0 and its votes_per_tvv is the NaN sentinel. -/
theorem C1_witness :
    (parse_pool decK poolK (5 * 10 ^ 18) none pmK).votes_per_tvv = none := by
  have hmem : parse_pool decK poolK (5 * 10 ^ 18) none pmK ∈
      iter_pools decK [poolK] wmapK rmapK pmK := by
    simp +decide [iter_pools, poolK, wmapK, rmapK, ZERO_ADDR, junk_tokens, pyToLower]
  have h := (C1_votes_per_tvv_defined_iff_tvv_pos decK [poolK] wmapK rmapK pmK _ hmem).2
  refine h ?_
  have htvv : (parse_pool decK poolK (5 * 10 ^ 18) none pmK).tvv = 0 := by
    simp [parse_pool]
  rw [htvv]
  norm_num

/-- C9: every PoolRecord yielded by the pipeline has votes_raw strictly
positive; pools whose resolved weight is missing (defaulted to 0) or not
positive never reach valuation, ranking or snapshot output. -/
theorem C9_kept_pools_have_positive_votes (tokenDecimals : String → ℕ)
    (pools : List PoolStruct) (weight_map : String → Option ℤ)
    (reward_map : String → Option (List Reward)) (price_map : String → Option ℚ)
    (r : PoolRow)
    (hr : r ∈ iter_pools tokenDecimals pools weight_map reward_map price_map) :
    0 < r.votes_raw :=
  iter_pools_votes_pos hr

/-- C9 witness: the concrete one-pool pipeline keeps the pool with weight
5e18 and its record has positive votes_raw. -/
theorem C9_witness :
    0 < (parse_pool decK poolK (5 * 10 ^ 18) none pmK).votes_raw := by
  have hmem : parse_pool decK poolK (5 * 10 ^ 18) none pmK ∈
      iter_pools decK [poolK] wmapK rmapK pmK := by
    simp +decide [iter_pools, poolK, wmapK, rmapK, ZERO_ADDR, junk_tokens, pyToLower]
  exact C9_kept_pools_have_positive_votes decK [poolK] wmapK rmapK pmK _ hmem

/-- C10: when the resolved decimals of a pool token is 0, parse_pool sets the
scaled fee field of that token to the NaN sentinel (none) rather than to the
raw amount divided by 1; the scaled field equals raw divided by 10 to the
decimals exactly when decimals is nonzero. -/
theorem C10_zero_decimals_fee_undefined (tokenDecimals : String → ℕ)
    (pool : PoolStruct) (votes_raw : ℤ) (reward : Option Reward)
    (price_map : String → Option ℚ) :
    (tokenDecimals pool.token0 = 0 →
      (parse_pool tokenDecimals pool votes_raw reward price_map).token0_fees = none) ∧
    (tokenDecimals pool.token0 ≠ 0 →
      (parse_pool tokenDecimals pool votes_raw reward price_map).token0_fees =
        some ((pool.token0_fees : ℚ) / 10 ^ tokenDecimals pool.token0)) ∧
    (tokenDecimals pool.token1 = 0 →
      (parse_pool tokenDecimals pool votes_raw reward price_map).token1_fees = none) ∧
    (tokenDecimals pool.token1 ≠ 0 →
      (parse_pool tokenDecimals pool votes_raw reward price_map).token1_fees =
        some ((pool.token1_fees : ℚ) / 10 ^ tokenDecimals pool.token1)) := by
  refine ⟨fun h0 => ?_, fun h0 => ?_, fun h1 => ?_, fun h1 => ?_⟩ <;>
    simp only [parse_pool] <;> first | simp [h0] | simp [h1]

/-- C10 witness: with token t0 resolving to 0 decimals and token t1 to 2
decimals, the record has token0_fees = NaN and token1_fees = 300 / 100 = 3. -/
theorem C10_witness :
    (parse_pool decC10 poolC10 1 none pmK).token0_fees = none ∧
    (parse_pool decC10 poolC10 1 none pmK).token1_fees = some 3 := by
  have h := C10_zero_decimals_fee_undefined decC10 poolC10 1 none pmK
  constructor
  · exact h.1 (by simp +decide [decC10, poolC10])
  · have h4 := h.2.2.2 (by simp +decide [decC10, poolC10])
    rw [h4]
    simp +decide [decC10, poolC10]
    norm_num

theorem parse_number_int (n : ℤ) : parse_number (.int n) = .int n := rfl

theorem parse_number_float (q : ℚ) : parse_number (.float q) = .float q := rfl

theorem parse_number_cellOfOpt (o : Option ℚ) :
    parse_number (cellOfOpt o) = cellOfOpt o := by
  cases o <;> rfl

/-- Generalized core of claim C5: whenever every row has positive raw votes
and at least one row is present, the vote_pct column is everywhere defined,
sums to exactly 100 over the rationals, matches the emitted cells, and the
snapshot ends with the TOTAL row whose vote_pct is the literal 100. -/
theorem write_csv_vote_pct_sum (rows : List PoolRow) (hne : rows ≠ [])
    (hpos : ∀ r ∈ rows, 0 < r.votes_raw) :
    (∀ o ∈ vote_pcts rows, o.isSome) ∧
    ((vote_pcts rows).map (fun o => o.getD 0)).sum = 100 ∧
    ((write_csv rows).take rows.length).map CsvRecord.vote_pct
      = (vote_pcts rows).map cellOfOpt ∧
    (write_csv rows).getLast? = some (totalRow rows) ∧
    (totalRow rows).vote_pct = Cell.float 100 := by
  have htot : 0 < (rows.map PoolRow.votes_raw).sum := by
    apply List.sum_pos
    · intro x hx
      obtain ⟨r, hr, rfl⟩ := List.mem_map.mp hx
      exact hpos r hr
    · simpa using hne
  have htne : (rows.map PoolRow.votes_raw).sum ≠ 0 := ne_of_gt htot
  have htneQ : (((rows.map PoolRow.votes_raw).sum : ℤ) : ℚ) ≠ 0 :=
    Int.cast_ne_zero.mpr htne
  refine ⟨?_, ?_, ?_, ?_, rfl⟩
  · intro o ho
    rw [vote_pcts, List.mem_map] at ho
    obtain ⟨r, hr, rfl⟩ := ho
    simp [vote_pct_of, htne]
  · rw [vote_pcts, List.map_map]
    have hmap : rows.map ((fun o => o.getD 0) ∘ vote_pct_of ((rows.map PoolRow.votes_raw).sum))
        = rows.map (fun r => (r.votes_raw : ℚ) * (100 / (((rows.map PoolRow.votes_raw).sum : ℤ) : ℚ))) := by
      apply List.map_congr_left
      intro r hr
      simp only [Function.comp_apply, vote_pct_of, htne, if_false, Option.getD_some]
      ring
    rw [hmap, List.sum_map_mul_right]
    have hsum : (rows.map (fun r => ((r.votes_raw : ℤ) : ℚ))).sum
        = (((rows.map PoolRow.votes_raw).sum : ℤ) : ℚ) := by
      push_cast
      rw [List.map_map]
      rfl
    rw [hsum]
    have hcancel : ∀ a : ℚ, a ≠ 0 → a * (100 / a) = 100 := by
      intro a ha
      field_simp
    exact hcancel _ htneQ
  · rw [write_csv]
    have hlen : rows.length = (rows.map
        (fun r => writeRow r (vote_pct_of ((rows.map PoolRow.votes_raw).sum) r))).length := by
      rw [List.length_map]
    rw [hlen, List.take_left, List.map_map, vote_pcts, List.map_map]
    rfl
  · rw [write_csv]
    have hE : rows.isEmpty = false := by simpa using hne
    rw [hE]
    simp only [Bool.false_eq_true, if_false]
    exact List.getLast?_concat _

/-- C5: in the snapshot written by write_csv for the kept pipeline rows, the
per-pool vote_pct column is defined everywhere, sums to exactly 100 over the
rationals whenever at least one pool is kept, and the synthetic TOTAL row
carries the literal 100 as its vote_pct. -/
theorem C5_snapshot_vote_pct (tokenDecimals : String → ℕ) (pools : List PoolStruct)
    (weight_map : String → Option ℤ) (reward_map : String → Option (List Reward))
    (price_map : String → Option ℚ)
    (hne : iter_pools tokenDecimals pools weight_map reward_map price_map ≠ []) :
    (∀ o ∈ vote_pcts (iter_pools tokenDecimals pools weight_map reward_map price_map), o.isSome) ∧
    ((vote_pcts (iter_pools tokenDecimals pools weight_map reward_map price_map)).map
        (fun o => o.getD 0)).sum = 100 ∧
    ((write_csv (iter_pools tokenDecimals pools weight_map reward_map price_map)).take
        (iter_pools tokenDecimals pools weight_map reward_map price_map).length).map
        CsvRecord.vote_pct
      = (vote_pcts (iter_pools tokenDecimals pools weight_map reward_map price_map)).map
          cellOfOpt ∧
    (write_csv (iter_pools tokenDecimals pools weight_map reward_map price_map)).getLast?
      = some (totalRow (iter_pools tokenDecimals pools weight_map reward_map price_map)) ∧
    (totalRow (iter_pools tokenDecimals pools weight_map reward_map price_map)).vote_pct
      = Cell.float 100 :=
  write_csv_vote_pct_sum _ hne (fun _ hr => iter_pools_votes_pos hr)

/-- C5 witness: on the concrete one-pool pipeline the vote_pct column sums to
100 and the snapshot ends with the TOTAL row. -/
theorem C5_witness :
    ((vote_pcts (iter_pools decK [poolK] wmapK rmapK pmK)).map (fun o => o.getD 0)).sum = 100 ∧
    (write_csv (iter_pools decK [poolK] wmapK rmapK pmK)).getLast?
      = some (totalRow (iter_pools decK [poolK] wmapK rmapK pmK)) := by
  have h := C5_snapshot_vote_pct decK [poolK] wmapK rmapK pmK (by
    simp +decide [iter_pools, poolK, wmapK, rmapK, ZERO_ADDR, junk_tokens, pyToLower])
  exact ⟨h.2.1, h.2.2.2.1⟩

/-- C6: writing any list of PoolRecords with write_csv and reloading the file
with load_pools reproduces, at every row index in order, every numeric field
of the corresponding record: integer fields come back as the same ints,
float fields as the same rationals, NaN fields as NaN. -/
theorem C6_round_trip (rows : List PoolRow) (i : ℕ) (h : i < rows.length) :
    ∃ lr : CsvRecord, (load_pools (write_csv rows))[i]? = some lr ∧
      numericFieldsEq lr rows[i]
        (vote_pct_of ((rows.map PoolRow.votes_raw).sum) rows[i]) := by
  refine ⟨parse_record (writeRow rows[i]
    (vote_pct_of ((rows.map PoolRow.votes_raw).sum) rows[i])), ?_, ?_⟩
  · rw [load_pools, write_csv, List.getElem?_map, List.getElem?_append,
      if_pos (by simpa using h), List.getElem?_map,
      List.getElem?_eq_getElem h]
    rfl
  · simp [numericFieldsEq, parse_record, writeRow, parse_number_int,
      parse_number_float, parse_number_cellOfOpt]

/-- C6 witness: the concrete row rowW written and reloaded at index 0 gives
back its integral votes_raw as an int cell and its NaN token1_fees as NaN. -/
theorem C6_witness :
    ((load_pools (write_csv [rowW]))[0]?).map CsvRecord.votes_raw
      = some (Cell.int 4) ∧
    ((load_pools (write_csv [rowW]))[0]?).map CsvRecord.token1_fees = some Cell.nan := by
  obtain ⟨lr, hget, hnum⟩ := C6_round_trip [rowW] 0 (by decide)
  obtain ⟨-, -, -, -, -, -, -, h8, -, -, h11, -, -, -, -, -, -, -⟩ := hnum
  rw [hget]
  constructor
  · simp only [Option.map]
    rw [h11]
    rfl
  · simp only [Option.map]
    rw [h8]
    rfl

/-- The chunked fetch succeeds exactly when the transport succeeds on every
submitted chunk; any chunk-level transport failure propagates out. -/
theorem fetch_weights_chunks_ok_iff
    (transport : List (ℕ × String) → Except String (List RpcResp))
    (cs : List (List (ℕ × String))) :
    (∃ m, fetch_weights_chunks transport cs = .ok m) ↔
      ∀ c ∈ cs, ∃ rs, transport c = .ok rs := by
  induction cs with
  | nil => simp [fetch_weights_chunks]
  | cons c cs ih =>
    constructor
    · rintro ⟨m, hm⟩
      rw [fetch_weights_chunks] at hm
      intro d hd
      rcases List.mem_cons.mp hd with rfl | hd
      · cases htc : transport d with
        | error e => rw [htc] at hm; exact absurd hm (by simp)
        | ok rs => exact ⟨rs, rfl⟩
      · cases htc : transport c with
        | error e => rw [htc] at hm; exact absurd hm (by simp)
        | ok rs =>
          rw [htc] at hm
          cases hrec : fetch_weights_chunks transport cs with
          | error e => rw [hrec] at hm; exact absurd hm (by simp)
          | ok rest => exact (ih.mp ⟨rest, hrec⟩) d hd
    · intro hall
      obtain ⟨rs, hrs⟩ := hall c (List.mem_cons_self c cs)
      obtain ⟨rest, hrest⟩ := ih.mpr (fun d hd => hall d (List.mem_cons_of_mem c hd))
      exact ⟨decode_chunk c rs ++ rest, by rw [fetch_weights_chunks, hrs, hrest]⟩

/-- C2 counterexample: with two addresses and chunk size 1, a transport that
answers the first chunk and fails on the second makes the whole fetch return
the transport error; the surviving first chunk result (weight 5 for address
a) is not returned to the caller, contradicting the claim that only the
failing chunk is lost. -/
theorem C2_counterexample_chunk_failure_aborts_fetch :
    transportC2 [(0, "a")] = .ok [⟨0, some 5⟩] ∧
    fetch_weights ["a", "b"] transportC2 1 = .error "http 500" := by
  constructor
  · simp +decide [transportC2]
  · simp +decide [fetch_weights, fetch_weights_chunks, chunksOf, enumFromN,
      transportC2, decode_chunk, decode_int256]

/-- C2 amended: in the batched weight fetcher, a total transport failure on
any chunk propagates to the caller and aborts the whole fetch (exactly as
the uncaught exception does in the source); the fetch returns a result map
precisely when every chunk of the batch is submitted successfully. -/
theorem C2_amended_chunk_failure_propagates (addresses : List String)
    (transport : List (ℕ × String) → Except String (List RpcResp))
    (chunk_size : ℕ) :
    (∃ m, fetch_weights addresses transport chunk_size = .ok m) ↔
      ∀ c ∈ chunksOf chunk_size (enumFromN 0 addresses), ∃ rs, transport c = .ok rs :=
  fetch_weights_chunks_ok_iff transport _

theorem find?_mapSet_self (d : PyDict) (k : String) (v : ℚ)
    (h : d.any (fun p => p.1 == k) = true) :
    (d.map (fun p => if p.1 = k then (k, v) else p)).find? (fun p => p.1 == k)
      = some (k, v) := by
  induction d with
  | nil => simp at h
  | cons p t ih =>
    by_cases hp : p.1 = k
    · simp [hp]
    · have hb : (p.1 == k) = false := beq_eq_false_iff_ne.mpr hp
      have ht : t.any (fun p => p.1 == k) = true := by
        rcases List.any_eq_true.mp h with ⟨x, hx, hxk⟩
        rcases List.mem_cons.mp hx with rfl | hx
        · exact absurd (by simpa using hxk) hp
        · exact List.any_eq_true.mpr ⟨x, hx, hxk⟩
      simp only [List.map_cons, if_neg hp, List.find?_cons, hb]
      exact ih ht

theorem find?_mapSet_ne (d : PyDict) (k : String) (v : ℚ) (q : String) (hq : q ≠ k) :
    (d.map (fun p => if p.1 = k then (k, v) else p)).find? (fun p => p.1 == q)
      = d.find? (fun p => p.1 == q) := by
  induction d with
  | nil => rfl
  | cons p t ih =>
    by_cases hp : p.1 = k
    · have hkq : ((k, v).1 == q) = false := beq_eq_false_iff_ne.mpr (Ne.symm hq)
      have hpq : (p.1 == q) = false := by
        rw [hp]
        exact beq_eq_false_iff_ne.mpr (Ne.symm hq)
      simp only [List.map_cons, if_pos hp, List.find?_cons, hkq, hpq]
      exact ih
    · simp only [List.map_cons, if_neg hp, List.find?_cons]
      cases hpq : (p.1 == q) with
      | true => rfl
      | false => exact ih

/-- Lookup after a Python dict assignment: the assigned key reads back the
new value, every other key is untouched. -/
theorem dictGet_dictSet (d : PyDict) (k : String) (v : ℚ) (q : String) :
    dictGet (dictSet d k v) q = if q = k then some v else dictGet d q := by
  rw [dictSet]
  by_cases hA : d.any (fun p => p.1 == k) = true
  · rw [if_pos hA]
    by_cases hq : q = k
    · subst hq
      rw [if_pos rfl, dictGet, find?_mapSet_self d q v hA]
      rfl
    · rw [if_neg hq, dictGet, find?_mapSet_ne d k v q hq]
      rfl
  · rw [if_neg hA, dictGet, List.find?_append]
    by_cases hq : q = k
    · subst hq
      have hnone : d.find? (fun p => p.1 == q) = none := by
        rw [List.find?_eq_none]
        intro x hx hxq
        exact hA (List.any_eq_true.mpr ⟨x, hx, hxq⟩)
      rw [hnone, if_pos rfl]
      simp
    · have hkq : ((k, v).1 == q) = false := beq_eq_false_iff_ne.mpr (Ne.symm hq)
      have h1 : ([(k, v)].find? (fun p => p.1 == q)) = none := by
        simp only [List.find?_cons, hkq]
        rfl
      rw [h1, if_neg hq]
      simp [dictGet]

/-- Lookup in a Python dict.update result: a key of the right dict (whose
keys are unique, as dict keys are) reads the fresh value, everything else
falls back to the left dict. -/
theorem dictGet_dictUpdate (disk new : PyDict) (k : String)
    (hnn : (new.map Prod.fst).Nodup) :
    dictGet (dictUpdate disk new) k = optionOr (dictGet new k) (dictGet disk k) := by
  induction new generalizing disk with
  | nil => simp [dictUpdate, dictGet, optionOr]
  | cons p t ih =>
    rw [List.map_cons, List.nodup_cons] at hnn
    rw [dictUpdate, List.foldl_cons]
    have hstep : t.foldl (fun acc q => dictSet acc q.1 q.2) (dictSet disk p.1 p.2)
        = dictUpdate (dictSet disk p.1 p.2) t := rfl
    rw [hstep, ih _ hnn.2, dictGet_dictSet]
    by_cases hk : k = p.1
    · subst hk
      have htnone : dictGet t p.1 = none := by
        rw [dictGet]
        have hfind : t.find? (fun q => q.1 == p.1) = none := by
          rw [List.find?_eq_none]
          intro x hx hxk
          exact hnn.1 (List.mem_map.mpr ⟨x, hx, by simpa using hxk⟩)
        rw [hfind]
        rfl
      have hhead : dictGet (p :: t) p.1 = some p.2 := by
        have hb : (p.1 == p.1) = true := by simp
        simp only [dictGet, List.find?_cons, hb]
        rfl
      rw [htnone, if_pos rfl, hhead]
      rfl
    · rw [if_neg hk]
      have hb : (p.1 == k) = false := beq_eq_false_iff_ne.mpr (fun h => hk h.symm)
      have hhead : dictGet (p :: t) k = dictGet t k := by
        simp only [dictGet, List.find?_cons, hb]
      rw [hhead]

theorem mem_dictSet {d : PyDict} {k : String} {v : ℚ} {p : String × ℚ}
    (hp : p ∈ dictSet d k v) : p.1 = k ∨ p ∈ d := by
  rw [dictSet] at hp
  by_cases hA : d.any (fun q => q.1 == k) = true
  · rw [if_pos hA, List.mem_map] at hp
    obtain ⟨q, hq, rfl⟩ := hp
    by_cases hqk : q.1 = k
    · rw [if_pos hqk]
      exact Or.inl rfl
    · rw [if_neg hqk]
      exact Or.inr hq
  · rw [if_neg hA, List.mem_append] at hp
    rcases hp with hp | hp
    · exact Or.inr hp
    · rw [List.mem_singleton] at hp
      subst hp
      exact Or.inl rfl

theorem keys_dictSet (d : PyDict) (k : String) (v : ℚ) :
    (dictSet d k v).map Prod.fst
      = if d.any (fun p => p.1 == k) = true then d.map Prod.fst
        else d.map Prod.fst ++ [k] := by
  rw [dictSet]
  by_cases hA : d.any (fun p => p.1 == k) = true
  · rw [if_pos hA, if_pos hA, List.map_map]
    apply List.map_congr_left
    intro p hp
    by_cases hpk : p.1 = k
    · simp [hpk]
    · simp [hpk]
  · rw [if_neg hA, if_neg hA]
    simp

theorem keys_nodup_dictSet {d : PyDict} (k : String) (v : ℚ)
    (hd : (d.map Prod.fst).Nodup) : ((dictSet d k v).map Prod.fst).Nodup := by
  rw [keys_dictSet]
  by_cases hA : d.any (fun p => p.1 == k) = true
  · rwa [if_pos hA]
  · rw [if_neg hA]
    rw [List.nodup_append]
    refine ⟨hd, List.nodup_singleton k, ?_⟩
    intro x hx
    rw [List.mem_map] at hx
    obtain ⟨p, hp, rfl⟩ := hx
    rw [List.mem_singleton]
    intro hpk
    exact hA (List.any_eq_true.mpr ⟨p, hp, by simpa using hpk⟩)

theorem dictUpdate_keys_nodup {disk : PyDict} (new : PyDict)
    (hdn : (disk.map Prod.fst).Nodup) :
    ((dictUpdate disk new).map Prod.fst).Nodup := by
  induction new generalizing disk with
  | nil => exact hdn
  | cons p t ih =>
    rw [dictUpdate, List.foldl_cons]
    exact ih (keys_nodup_dictSet p.1 p.2 hdn)

theorem dictUpdate_keys_lower {disk new : PyDict}
    (hdl : ∀ p ∈ disk, p.1 = pyToLower p.1) (hnl : ∀ p ∈ new, p.1 = pyToLower p.1) :
    ∀ p ∈ dictUpdate disk new, p.1 = pyToLower p.1 := by
  induction new generalizing disk with
  | nil => exact hdl
  | cons q t ih =>
    rw [dictUpdate, List.foldl_cons]
    intro p hp
    refine ih ?_ (fun x hx => hnl x (List.mem_cons_of_mem q hx)) p hp
    intro x hx
    rcases mem_dictSet hx with hxk | hx
    · rw [hxk]
      exact hnl q (List.mem_cons_self q t)
    · exact hdl x hx

/-- The lowercasing comprehension rebuilds a dict unchanged when its keys are
already lowercase and pairwise distinct. -/
theorem foldl_lower_noop (d : PyDict) :
    ∀ acc : PyDict, (∀ p ∈ d, p.1 = pyToLower p.1) →
      ((acc.map Prod.fst) ++ (d.map Prod.fst)).Nodup →
      d.foldl (fun a p => dictSet a (pyToLower p.1) p.2) acc = acc ++ d := by
  induction d with
  | nil =>
    intro acc _ _
    simp
  | cons p t ih =>
    intro acc hlow hnd
    rw [List.foldl_cons]
    have hp : pyToLower p.1 = p.1 := (hlow p (List.mem_cons_self p t)).symm
    have hnotin : ¬ acc.any (fun q => q.1 == p.1) = true := by
      intro hA
      rcases List.any_eq_true.mp hA with ⟨q, hq, hqk⟩
      have hqk2 : q.1 = p.1 := by simpa using hqk
      rw [List.map_cons, List.nodup_append] at hnd
      exact hnd.2.2 (List.mem_map.mpr ⟨q, hq, rfl⟩)
        (by rw [hqk2]; exact List.mem_cons_self p.1 (t.map Prod.fst))
    have hset : dictSet acc (pyToLower p.1) p.2 = acc ++ [p] := by
      rw [hp, dictSet, if_neg hnotin]
    rw [hset]
    have hnd2 : (((acc ++ [p]).map Prod.fst) ++ (t.map Prod.fst)).Nodup := by
      rw [List.map_append]
      have : (acc.map Prod.fst ++ [p].map Prod.fst) ++ t.map Prod.fst
          = acc.map Prod.fst ++ (p.1 :: t.map Prod.fst) := by
        rw [List.append_assoc]
        rfl
      rw [this]
      simpa using hnd
    rw [ih (acc ++ [p]) (fun x hx => hlow x (List.mem_cons_of_mem p hx)) hnd2]
    rw [List.append_assoc]
    rfl

/-- C3 counterexample: the map persisted by update_price_map does not contain
the hardcoded default stable prices unless they were already on disk; with an
empty prior file and one fetched price, the default Base USDC address is a
key of DEFAULT_PRICE_MAP but absent from the persisted map. -/
theorem C3_counterexample_defaults_not_persisted :
    dictGet DEFAULT_PRICE_MAP "0x833589fcd6edb6e08f4c7c32d4f71b54bda02913" = some 1 ∧
    dictGet (update_price_map [] [("0xaaaa", 2)])
      "0x833589fcd6edb6e08f4c7c32d4f71b54bda02913" = none := by
  constructor
  · simp +decide [DEFAULT_PRICE_MAP, dictGet]
  · simp +decide [update_price_map, lowerKeys, dictUpdate, dictSet, dictGet, pyToLower]

/-- C3 amended: the map persisted by update_price_map is the previously
persisted on-disk map merged with all freshly fetched prices with every key
lowercased, and on any address present in both, the freshly fetched value
overrides the stale persisted one; the hardcoded defaults are not added by
the persistence step (they are only merged into the in-memory map at load).
The hypotheses state the maintained shape of both inputs: real Python dicts
have unique keys, the fetcher lowercases its keys, and the on-disk file was
itself written lowercased by this function. -/
theorem C3_amended_persisted_map (disk new : PyDict)
    (hdl : ∀ p ∈ disk, p.1 = pyToLower p.1) (hdn : (disk.map Prod.fst).Nodup)
    (hnl : ∀ p ∈ new, p.1 = pyToLower p.1) (hnn : (new.map Prod.fst).Nodup) :
    (∀ p ∈ update_price_map disk new, p.1 = pyToLower p.1) ∧
    ∀ k, dictGet (update_price_map disk new) k
      = optionOr (dictGet new k) (dictGet disk k) := by
  have hul : ∀ p ∈ dictUpdate disk new, p.1 = pyToLower p.1 :=
    dictUpdate_keys_lower hdl hnl
  have hun : ((dictUpdate disk new).map Prod.fst).Nodup :=
    dictUpdate_keys_nodup new hdn
  have hid : update_price_map disk new = dictUpdate disk new := by
    rw [update_price_map, lowerKeys]
    have := foldl_lower_noop (dictUpdate disk new) [] hul (by simpa using hun)
    rw [this]
    rfl
  rw [hid]
  exact ⟨hul, fun k => dictGet_dictUpdate disk new k hnn⟩

/-- C3 witness: with one stale price on disk and one fresh price for the
same key plus one new key, the persisted map reads the fresh value for the
shared key and keeps the stale-only key. -/
theorem C3_witness :
    dictGet (update_price_map [("0xa", 3), ("0xb", 4)] [("0xb", 5)]) "0xb" = some 5 ∧
    dictGet (update_price_map [("0xa", 3), ("0xb", 4)] [("0xb", 5)]) "0xa" = some 3 := by
  have h := C3_amended_persisted_map [("0xa", 3), ("0xb", 4)] [("0xb", 5)]
    (by decide) (by decide) (by decide) (by decide)
  constructor
  · rw [h.2 "0xb"]
    simp +decide [dictGet, optionOr]
  · rw [h.2 "0xa"]
    simp +decide [dictGet, optionOr]

theorem length_insertDesc {α : Type} (key : α → ℚ) (a : α) (l : List α) :
    (insertDesc key a l).length = l.length + 1 := by
  induction l with
  | nil => rfl
  | cons y ys ih =>
    rw [insertDesc]
    by_cases h : key y ≤ key a
    · rw [if_pos h]
      rfl
    · rw [if_neg h]
      simp [ih]

theorem length_sortDesc {α : Type} (key : α → ℚ) (l : List α) :
    (sortDesc key l).length = l.length := by
  induction l with
  | nil => rfl
  | cons y ys ih =>
    rw [sortDesc, List.foldr_cons]
    have : ys.foldr (insertDesc key) [] = sortDesc key ys := rfl
    rw [this, length_insertDesc, ih, List.length_cons]

theorem mem_insertDesc {α : Type} (key : α → ℚ) (x a : α) (l : List α) :
    x ∈ insertDesc key a l ↔ x = a ∨ x ∈ l := by
  induction l with
  | nil => simp [insertDesc]
  | cons y ys ih =>
    rw [insertDesc]
    by_cases h : key y ≤ key a
    · rw [if_pos h]
      simp [List.mem_cons]
    · rw [if_neg h]
      simp only [List.mem_cons, ih]
      tauto

theorem mem_sortDesc {α : Type} (key : α → ℚ) (x : α) (l : List α) :
    x ∈ sortDesc key l ↔ x ∈ l := by
  induction l with
  | nil => simp [sortDesc]
  | cons y ys ih =>
    rw [sortDesc, List.foldr_cons]
    have hrw : ys.foldr (insertDesc key) [] = sortDesc key ys := rfl
    rw [hrw, mem_insertDesc]
    simp [ih]

/-- Every iteration order of a three-element set of the addresses a, b, c is
one of the six permutations. -/
theorem perm3_cases {x y z : String} (h : [x, y, z].Perm ["a", "b", "c"]) :
    [x, y, z] = ["a", "b", "c"] ∨ [x, y, z] = ["a", "c", "b"] ∨
    [x, y, z] = ["b", "a", "c"] ∨ [x, y, z] = ["b", "c", "a"] ∨
    [x, y, z] = ["c", "a", "b"] ∨ [x, y, z] = ["c", "b", "a"] := by
  have hx : x ∈ ["a", "b", "c"] := h.mem_iff.mp (by simp)
  have hy : y ∈ ["a", "b", "c"] := h.mem_iff.mp (by simp)
  have hz : z ∈ ["a", "b", "c"] := h.mem_iff.mp (by simp)
  have hnd : ([x, y, z] : List String).Nodup := h.nodup_iff.mpr (by decide)
  simp only [List.mem_cons, List.mem_singleton, List.not_mem_nil, or_false] at hx hy hz
  simp only [List.nodup_cons, List.mem_cons, List.mem_singleton, List.not_mem_nil,
    List.nodup_nil, and_true, not_or] at hnd
  rcases hx with rfl | rfl | rfl <;> rcases hy with rfl | rfl | rfl <;>
    rcases hz with rfl | rfl | rfl <;> simp_all

/-- C4 counterexample: the iteration order of the Python address set is
unspecified, and with the admissible order c, a, b the comparator returns C
before A (both share the absolute delta 50), so the claimed fixed order
A, C, B does not hold of the code. -/
theorem C4_counterexample_tie_order :
    (["c", "a", "b"] : List String).Perm ["a", "b", "c"] ∧
    compare_vote_changes currC4 prevC4 ["c", "a", "b"] none = [recC4, recA4, recB4] ∧
    recC4.name = "C" ∧ recA4.name = "A" := by
  refine ⟨by decide, ?_, rfl, rfl⟩
  norm_num +decide [compare_vote_changes, mkChange, sortDesc, insertDesc,
    currC4, prevC4, recA4, recB4, recC4, abs, Change.mk.injEq]

/-- C4 amended: in the concrete scenario (previous A=100, B=200, C=50;
current A=150, B=200, C absent) the comparator with no limit returns exactly
the three records A (+50, +50 percent), C (-50, -100 percent), B (0, 0
percent) sorted by descending absolute delta with B last; A and C tie at
absolute delta 50, so their relative order follows the unspecified iteration
order of the Python address set: for every iteration order the result is
either A, C, B or C, A, B. -/
theorem C4_amended_compare_scenario (order : List String)
    (hperm : order.Perm ["a", "b", "c"]) :
    compare_vote_changes currC4 prevC4 order none = [recA4, recC4, recB4] ∨
    compare_vote_changes currC4 prevC4 order none = [recC4, recA4, recB4] := by
  have hlen : order.length = 3 := by
    rw [hperm.length_eq]
    rfl
  rcases order with _ | ⟨x, _ | ⟨y, _ | ⟨z, _ | _⟩⟩⟩ <;> simp at hlen
  rcases perm3_cases hperm with h6 | h6 | h6 | h6 | h6 | h6 <;>
    (injection h6 with h1 h6; injection h6 with h2 h6; injection h6 with h3 h6;
     subst h1; subst h2; subst h3)
  · exact Or.inl (by norm_num +decide [compare_vote_changes, mkChange, sortDesc,
      insertDesc, currC4, prevC4, recA4, recB4, recC4, abs, Change.mk.injEq])
  · exact Or.inl (by norm_num +decide [compare_vote_changes, mkChange, sortDesc,
      insertDesc, currC4, prevC4, recA4, recB4, recC4, abs, Change.mk.injEq])
  · exact Or.inl (by norm_num +decide [compare_vote_changes, mkChange, sortDesc,
      insertDesc, currC4, prevC4, recA4, recB4, recC4, abs, Change.mk.injEq])
  · exact Or.inr (by norm_num +decide [compare_vote_changes, mkChange, sortDesc,
      insertDesc, currC4, prevC4, recA4, recB4, recC4, abs, Change.mk.injEq])
  · exact Or.inr (by norm_num +decide [compare_vote_changes, mkChange, sortDesc,
      insertDesc, currC4, prevC4, recA4, recB4, recC4, abs, Change.mk.injEq])
  · exact Or.inr (by norm_num +decide [compare_vote_changes, mkChange, sortDesc,
      insertDesc, currC4, prevC4, recA4, recB4, recC4, abs, Change.mk.injEq])

/-- C4 witness: the iteration order a, b, c is admissible and yields one of
the two stated results. -/
theorem C4_witness :
    compare_vote_changes currC4 prevC4 ["a", "b", "c"] none = [recA4, recC4, recB4] ∨
    compare_vote_changes currC4 prevC4 ["a", "b", "c"] none = [recC4, recA4, recB4] :=
  C4_amended_compare_scenario ["a", "b", "c"] (by decide)

/-- C7 counterexample: an address present in both snapshots with identical
zero votes gets delta_votes 0 but delta_pct None (the undefined marker), not
0, because Python treats a zero previous weight as falsy. -/
theorem C7_counterexample_zero_votes :
    (compare_vote_changes votesZ votesZ ["z"] none).map
        (fun r => (r.current_votes, r.previous_votes, r.delta_votes, r.delta_pct))
      = [(0, 0, 0, none)] ∧ (none : Option ℚ) ≠ some 0 := by
  refine ⟨?_, by simp⟩
  norm_num +decide [compare_vote_changes, mkChange, sortDesc, insertDesc, votesZ]

/-- C7 amended: for an address present in both snapshots with identical vote
weights, the output record has delta_votes = 0, and delta_pct = 0 when the
shared weight is nonzero; when the shared weight is zero, delta_pct is the
explicit undefined value None instead. -/
theorem C7_amended_identical_votes (current previous : String → Option VoteEntry)
    (order : List String) (addr : String) (e1 e2 : VoteEntry)
    (hmem : addr ∈ order) (hc : current addr = some e1) (hp : previous addr = some e2)
    (hv : e1.votes = e2.votes) :
    mkChange current previous addr ∈ compare_vote_changes current previous order none ∧
    (mkChange current previous addr).delta_votes = 0 ∧
    (mkChange current previous addr).delta_pct
      = (if e2.votes = 0 then none else some 0) := by
  refine ⟨?_, ?_, ?_⟩
  · rw [compare_vote_changes]
    simp only [mem_sortDesc]
    exact List.mem_map.mpr ⟨addr, hmem, rfl⟩
  · simp [mkChange, hc, hp, hv]
  · simp only [mkChange, hc, hp]
    by_cases h0 : e2.votes = 0
    · rw [if_pos h0, if_pos h0]
    · rw [if_neg h0, if_neg h0, hv, sub_self, zero_div, zero_mul]

/-- C7 witness: identical nonzero weights for address w give delta_votes 0
and delta_pct 0. -/
theorem C7_witness :
    (mkChange votesW votesW "w").delta_votes = 0 ∧
    (mkChange votesW votesW "w").delta_pct = some 0 := by
  have h := C7_amended_identical_votes votesW votesW ["w"] "w"
    ⟨"w", "W", 7, none⟩ ⟨"w", "W", 7, none⟩ (by decide) rfl rfl rfl
  refine ⟨h.2.1, ?_⟩
  rw [h.2.2, if_neg (by norm_num)]

/-- C8 counterexample: supplying topN = 0 does not yield an empty list; 0 is
falsy in Python, so the full change set is returned. -/
theorem C8_counterexample_topn_zero :
    compare_vote_changes votesZ votesZ ["z"] (some 0)
      = compare_vote_changes votesZ votesZ ["z"] none ∧
    (compare_vote_changes votesZ votesZ ["z"] (some 0)).length = 1 := by
  constructor
  · norm_num +decide [compare_vote_changes]
  · norm_num +decide [compare_vote_changes, mkChange, sortDesc, insertDesc, votesZ]

/-- C8 amended: compare_vote_changes truncates its sorted result to the
first topN entries when a positive topN is supplied; supplying no topN
returns the full set, and so does topN = 0, which is falsy in Python and
skips the truncation. -/
theorem C8_amended_truncation (current previous : String → Option VoteEntry)
    (order : List String) (n : ℤ) :
    compare_vote_changes current previous order (some 0)
      = compare_vote_changes current previous order none ∧
    (0 < n →
      compare_vote_changes current previous order (some n)
        = (compare_vote_changes current previous order none).take n.toNat ∧
      (compare_vote_changes current previous order (some n)).length
        = min n.toNat order.length) := by
  have hzero : compare_vote_changes current previous order (some 0)
      = compare_vote_changes current previous order none := by
    rw [compare_vote_changes, compare_vote_changes]
    simp
  refine ⟨hzero, fun hn => ?_⟩
  have hne : n ≠ 0 := ne_of_gt hn
  have htake : compare_vote_changes current previous order (some n)
      = (compare_vote_changes current previous order none).take n.toNat := by
    rw [compare_vote_changes, compare_vote_changes]
    simp only [if_neg hne, pySlice, if_pos (le_of_lt hn)]
  refine ⟨htake, ?_⟩
  rw [htake, List.length_take]
  rw [compare_vote_changes]
  simp only [length_sortDesc, List.length_map]

/-- C8 witness: with one address and topN = 1, the result is the one-element
truncation of the full set. -/
theorem C8_witness :
    compare_vote_changes votesZ votesZ ["z"] (some 1)
      = (compare_vote_changes votesZ votesZ ["z"] none).take 1 ∧
    (compare_vote_changes votesZ votesZ ["z"] (some 1)).length = 1 := by
  have h := (C8_amended_truncation votesZ votesZ ["z"] 1).2 (by norm_num)
  refine ⟨?_, ?_⟩
  · simpa using h.1
  · simpa using h.2

end AeroRewards
